import Mathlib

/-!
Shallow embedding of the sequence container mystl::vector<T> from
src/MySTL/vector.hpp, together with proofs about the claims of its
specification. The container state is modelled by the list of live elements
(the range from elem_ to free_), the allocated capacity (last_ - elem_), and
a flag recording whether elem_ is a non-null pointer. Fallible operations
(those that throw std::out_of_range or std::length_error) return Except or
report a Bool flag; a fallible element copy constructor is modelled by a
predicate saying on which values the copy throws.
-/

namespace MySTL

/-- Error conditions the container signals by throwing: std::out_of_range and
the length_error used for the empty-container condition in the source. -/
inductive VErr where
  | outOfRange
  | emptyContainer
deriving DecidableEq

/-- Abstract state of a mystl::vector: data is the live range from elem_ to
free_, cap is last_ - elem_, and alloc records whether elem_ is non-null. -/
structure Vec (α : Type) where
  data : List α
  cap : Nat
  alloc : Bool
deriving DecidableEq

variable {α : Type}

/-- Constant FIRST_EXPAND_CAPACITY, source line 33. -/
def FIRST_EXPAND_CAPACITY : Nat := 10

/-- Constant EXPAND_RATE, source line 34. -/
def EXPAND_RATE : Nat := 2

/-- Width of std::size_t: all size_type arithmetic in the source is unsigned
64-bit arithmetic, that is arithmetic modulo 2 ^ 64. -/
def SIZE_T_MOD : Nat := 2 ^ 64

/-- Default constructor, source line 42: all three pointers are null. -/
def defaultVec : Vec α := ⟨[], 0, false⟩

/-- Member size(), source lines 194-197: free_ - elem_. -/
def Vec.size (v : Vec α) : Nat := v.data.length

/-- Member empty(), source lines 247-250: elem_ == free_. -/
def Vec.empty (v : Vec α) : Bool := v.data.isEmpty

/-- Member capacity(), source lines 242-245: last_ - elem_. -/
def Vec.capacity (v : Vec α) : Nat := v.cap

/-- Models std::uninitialized_copy when the element copy constructor may
throw: fails x = true means copying x throws. On a failure the elements
already built by this call are destroyed and the failure propagates, which
the result none captures. -/
def uninit_copy (fails : α → Bool) : List α → Option (List α)
  | [] => some []
  | x :: xs =>
    if fails x then none
    else (uninit_copy fails xs).map (fun ys => x :: ys)

/-- Private expand_capacity(new_capacity), source lines 491-530. When
new_capacity is at most the current capacity nothing happens. Otherwise a new
block is allocated and populated from the live range: by move construction
when the element move constructor is noexcept (nothrowMove = true, a branch
that cannot fail), else by copy construction, where an element copy failure
deallocates the new block and rethrows, leaving the container untouched. On
success the old block is destroyed and the new block with the new capacity is
adopted. The Bool result is true exactly when the call threw. -/
def expand_capacity (v : Vec α) (new_capacity : Nat) (nothrowMove : Bool)
    (fails : α → Bool) : Vec α × Bool :=
  if new_capacity ≤ v.cap then (v, false)
  else if nothrowMove then (⟨v.data, new_capacity, true⟩, false)
  else
    match uninit_copy fails v.data with
    | none => (v, true)
    | some nd => (⟨nd, new_capacity, true⟩, false)

/-- Private check_expand_capacity(), source lines 482-489: when free_ equals
last_, grow to FIRST_EXPAND_CAPACITY if empty and to size() * EXPAND_RATE
otherwise. Stated here for element types whose move constructor is noexcept
(such as int), so the growth takes the move branch and cannot fail. -/
def check_expand_capacity (v : Vec α) : Vec α :=
  if v.data.length = v.cap then
    (expand_capacity v
      (if v.empty then FIRST_EXPAND_CAPACITY else v.size * EXPAND_RATE)
      true (fun _ => false)).1
  else v

/-- Member push_back(value), source lines 216-227: check_expand_capacity(),
then construct the new element at free_ and advance free_. -/
def push_back (v : Vec α) (x : α) : Vec α :=
  let w := check_expand_capacity v
  ⟨w.data ++ [x], w.cap, w.alloc⟩

/-- Member clear(), source lines 110-114: destruct the live range and reset
free_ to elem_; the block and hence the capacity are kept. -/
def clear (v : Vec α) : Vec α := ⟨[], v.cap, v.alloc⟩

/-- Member pop_back(), source lines 313-320, as written: when the container
is not empty the last element is destroyed and free_ decremented, and then
the function unconditionally throws length_error. The Bool of the result is
true exactly when the call threw. -/
def pop_back (v : Vec α) : Vec α × Bool :=
  ((if !v.empty then ⟨v.data.dropLast, v.cap, v.alloc⟩ else v), true)

/-- Member front(), source lines 285-292, as written: the guard tests the
pointer elem_ (non-null block), not the size. When the guard passes the
function returns *begin(); if the size is 0 that slot holds no live object,
which the value none of the head? models. -/
def front (v : Vec α) : Except VErr (Option α) :=
  if v.alloc then .ok v.data.head? else .error .emptyContainer

/-- Member back(), source lines 299-306, as written: same guard on elem_ as
front(); when it passes the function returns *rbegin(), the slot one before
free_, which holds no live object when the size is 0. -/
def back (v : Vec α) : Except VErr (Option α) :=
  if v.alloc then .ok v.data.getLast? else .error .emptyContainer

/-- Member operator[](n), source lines 257-264: return elem_[n] when
n < size(), else throw out_of_range. -/
def opIndex (v : Vec α) (n : Nat) : Except VErr α :=
  if h : n < v.data.length then .ok (v.data.get ⟨n, h⟩)
  else .error .outOfRange

/-- Const overload of operator[], source lines 266-269: delegates to the
non-const operator[] on the same index. -/
def opIndex_const (v : Vec α) (n : Nat) : Except VErr α := opIndex v n

/-- Member at(n), non-const overload, source lines 271-278: return elem_[n]
when n < size(), else throw out_of_range. The const overload at source lines
280-283 calls this->at() with no argument and is therefore ill-formed when
instantiated; it has no embedding here. -/
def at_acc (v : Vec α) (n : Nat) : Except VErr α :=
  if h : n < v.data.length then .ok (v.data.get ⟨n, h⟩)
  else .error .outOfRange

/-- Constructor vector(n, value), source lines 49-52: create_elements(n,
value) fills a fresh block of n slots, so size and capacity are both n. -/
def mkVecFill (n : Nat) (x : α) : Vec α := ⟨List.replicate n x, n, true⟩

/-- Copy constructor, source lines 65-68: create_elements copies the source
range into a fresh block sized to the source size. An empty source returns
early and leaves the new container unallocated. A copy failure destroys what
was built, deallocates and rethrows (result none). -/
def copy_construct (fails : α → Bool) (v : Vec α) : Option (Vec α) :=
  if v.data.isEmpty then some ⟨[], 0, false⟩
  else (uninit_copy fails v.data).map (fun nd => ⟨nd, v.data.length, true⟩)

/-- Loop body of emplace, source lines 347-350: for iter from free_ - 2 down
to pos exclusive, assign *(iter - 1) into *iter. The counter argument is the
current value of iter as an offset from elem_; the buffer already holds the
extended live range after the placement construction at the old free_. -/
def shift_loop [Inhabited α] (idx : Nat) : Nat → List α → List α
  | 0, buf => buf
  | i + 1, buf =>
    if idx < i + 1 then
      shift_loop idx i (buf.set (i + 1) (buf.getD i default))
    else buf

/-- Member emplace(position, args...), source lines 322-354. The iterator
position is an offset from elem_; the guard rejects offsets past cend() (the
pointer comparison position < cbegin() has no counterpart for Nat offsets).
The offset is saved before check_expand_capacity because growth invalidates
the iterator. When the offset equals the size, construct at free_ and return
free_ - 1. Otherwise move-construct the element at free_ - 1 (the offset
size - 1) into the slot at free_, extend the live range, shift the elements
in (pos, free_ - 2] one slot right walking backwards, assign the new value
at pos and return pos. -/
def emplace [Inhabited α] (v : Vec α) (idx : Nat) (x : α) :
    Except VErr (Vec α × Nat) :=
  if v.data.length < idx then .error .outOfRange
  else
    let w := check_expand_capacity v
    if idx = w.data.length then .ok (⟨w.data ++ [x], w.cap, w.alloc⟩, idx)
    else
      let buf := w.data ++ [w.data.getD (w.data.length - 1) default]
      let buf := shift_loop idx (w.data.length - 1) buf
      let buf := buf.set idx x
      .ok (⟨buf, w.cap, w.alloc⟩, idx)

/-- Member insert(position, value), source lines 356-365: copy the value and
delegate to emplace at the same position. -/
def insert [Inhabited α] (v : Vec α) (idx : Nat) (x : α) :
    Except VErr (Vec α × Nat) :=
  emplace v idx x

/-- Loop of insert(position, n, value), source lines 387-391: n times, pos =
insert(pos, value), rereading the returned iterator each time. An exception
from the inner insert propagates. -/
def insert_rep [Inhabited α] (value : α) :
    Nat → Vec α → Nat → Except VErr (Vec α × Nat)
  | 0, v, pos => .ok (v, pos)
  | n + 1, v, pos =>
    match insert v pos value with
    | .error e => .error e
    | .ok (v2, p2) => insert_rep value n v2 p2

/-- Member insert(position, n, value), source lines 377-392: return the
original position unchanged when n is 0, else run the insertion loop. -/
def insert_n [Inhabited α] (v : Vec α) (pos : Nat) (n : Nat) (value : α) :
    Except VErr (Vec α × Nat) :=
  if n = 0 then .ok (v, pos) else insert_rep value n v pos

/-- Member erase(first, last), source lines 441-452. The guard, line 443,
rejects only first < cbegin() or last > cend(); with Nat offsets the first
conjunct always holds, so the embedded guard is last ≤ size. Note that it
does not require first ≤ last. The body move-assigns the suffix starting at
last onto first, destroys the vacated tail and pulls free_ back, which for
first ≤ last yields take first ++ drop last and the returned iterator first;
for first > last the C++ writes past free_ into dead slots, so only the
guard behavior is meaningful on that side. -/
def erase_range (v : Vec α) (first last : Nat) :
    Except VErr (Vec α × Nat) :=
  if last ≤ v.data.length then
    .ok (⟨v.data.take first ++ v.data.drop last, v.cap, v.alloc⟩, first)
  else .error .outOfRange

/-- Observer telling whether a fallible call returned normally (true) or
threw (false). -/
def isOkE (e : Except VErr (Vec α × Nat)) : Bool :=
  match e with
  | .ok _ => true
  | .error _ => false

/-- Member resize(new_size, value), source lines 204-214, as written: when
new_size < size(), erase the tail from begin() + new_size to end(); when
new_size > size(), insert(end(), size() - new_size, value), where the count
size() - new_size is computed in unsigned size_type arithmetic, that is
modulo 2 ^ 64. -/
def resize [Inhabited α] (v : Vec α) (new_size : Nat) (value : α) :
    Except VErr (Vec α) :=
  if new_size < v.data.length then
    (erase_range v new_size v.data.length).map (fun p => p.1)
  else if v.data.length < new_size then
    (insert_n v v.data.length
      ((v.data.length + SIZE_T_MOD - new_size) % SIZE_T_MOD) value).map
      (fun p => p.1)
  else .ok v

/-- Sequence of n push_back calls starting from a default-constructed
container; the pushed values are 0, 1, 2, ... (their values are irrelevant
to size and capacity). -/
def pushN : Nat → Vec Nat
  | 0 => defaultVec
  | n + 1 => push_back (pushN n) n

/-- Capacity sequence stated by the claim for n push_back calls from a
default-constructed container: capacity 0 at the start, first growth to 10,
then doubling exactly when the prior capacity is exhausted. -/
def capOf : Nat → Nat
  | 0 => 0
  | n + 1 =>
    if capOf n = n then (if n = 0 then FIRST_EXPAND_CAPACITY else n * EXPAND_RATE)
    else capOf n

/-- Copy assignment operator=, source lines 73-78: build a full temporary
copy of the source, then swap the three pointers with it. When the copy
construction throws, the swap never runs and the target keeps its state; the
Bool result is true exactly when the call threw. On success the target takes
the temporary state and the temporary, holding the old state, is destroyed
at end of scope. -/
def assign_copy (target src : Vec α) (fails : α → Bool) : Vec α × Bool :=
  match copy_construct fails src with
  | none => (target, true)
  | some c => (c, false)

/-! Helper lemmas about list indexing, used to reason about the pointer
arithmetic of the shifting loops. -/

lemma set_append_add (l₁ l₂ : List α) (k : Nat) (a : α) :
    (l₁ ++ l₂).set (l₁.length + k) a = l₁ ++ l₂.set k a := by
  induction l₁ with
  | nil => simp
  | cons x xs ih =>
    have h : (x :: xs).length + k = (xs.length + k) + 1 := by
      simp only [List.length_cons]; omega
    rw [List.cons_append, h, List.set_cons_succ, ih, List.cons_append]

lemma set_append_eq_len (l₁ l₂ : List α) (n : Nat) (a : α)
    (h : n = l₁.length) : (l₁ ++ l₂).set n a = l₁ ++ l₂.set 0 a := by
  subst h
  have h0 := set_append_add l₁ l₂ 0 a
  rw [Nat.add_zero] at h0
  exact h0

lemma getD_append_add (l₁ l₂ : List α) (k : Nat) (d : α) :
    (l₁ ++ l₂).getD (l₁.length + k) d = l₂.getD k d := by
  induction l₁ with
  | nil => simp
  | cons x xs ih =>
    have h : (x :: xs).length + k = (xs.length + k) + 1 := by
      simp only [List.length_cons]; omega
    rw [List.cons_append, h, List.getD_cons_succ, ih]

lemma getD_append_eq_len (l₁ l₂ : List α) (n : Nat) (d : α)
    (h : n = l₁.length) : (l₁ ++ l₂).getD n d = l₂.getD 0 d := by
  subst h
  have := getD_append_add l₁ l₂ 0 d
  simpa using this

lemma getD_append_of_lt (l₁ l₂ : List α) (k : Nat) (d : α)
    (h : k < l₁.length) : (l₁ ++ l₂).getD k d = l₁.getD k d := by
  induction l₁ generalizing k with
  | nil => simp at h
  | cons x xs ih =>
    cases k with
    | zero => simp
    | succ k =>
      rw [List.cons_append, List.getD_cons_succ, List.getD_cons_succ]
      refine ih k ?_
      simp only [List.length_cons] at h
      omega

lemma getD_take_of_lt (l : List α) (m k : Nat) (d : α) (h : k < m) :
    (l.take m).getD k d = l.getD k d := by
  induction l generalizing m k with
  | nil => simp
  | cons x xs ih =>
    cases m with
    | zero => exact absurd h (Nat.not_lt_zero k)
    | succ m =>
      cases k with
      | zero => simp
      | succ k =>
        rw [List.take_succ_cons, List.getD_cons_succ, List.getD_cons_succ]
        exact ih m k (by omega)

lemma take_succ_getD (l : List α) (i : Nat) (d : α) (h : i < l.length) :
    l.take (i + 1) = l.take i ++ [l.getD i d] := by
  induction l generalizing i with
  | nil => simp at h
  | cons x xs ih =>
    cases i with
    | zero => simp
    | succ i =>
      rw [List.take_succ_cons, List.take_succ_cons, List.getD_cons_succ,
        ih i (by simp only [List.length_cons] at h; omega), List.cons_append]

lemma drop_eq_getD_cons (l : List α) (i : Nat) (d : α) (h : i < l.length) :
    l.drop i = l.getD i d :: l.drop (i + 1) := by
  induction l generalizing i with
  | nil => simp at h
  | cons x xs ih =>
    cases i with
    | zero => simp
    | succ i =>
      rw [List.drop_succ_cons, List.getD_cons_succ, List.drop_succ_cons]
      exact ih i (by simp only [List.length_cons] at h; omega)

/-! Lemmas about the copy loop, the capacity manager and the shifting loop. -/

lemma uninit_copy_of_forall (fails : α → Bool) (l : List α)
    (h : ∀ x ∈ l, fails x = false) : uninit_copy fails l = some l := by
  induction l with
  | nil => rfl
  | cons x xs ih =>
    have hx : fails x = false := h x (by simp)
    have hxs := ih (fun y hy => h y (by simp [hy]))
    simp [uninit_copy, hx, hxs]

lemma uninit_copy_of_exists (fails : α → Bool) (l : List α)
    (h : ∃ x ∈ l, fails x = true) : uninit_copy fails l = none := by
  induction l with
  | nil =>
    obtain ⟨x, hx, _⟩ := h
    simp at hx
  | cons y ys ih =>
    obtain ⟨x, hx, hf⟩ := h
    by_cases hy : fails y = true
    · simp [uninit_copy, hy]
    · have hy' : fails y = false := by
        revert hy; cases fails y <;> simp
      have hmem : x ∈ ys := by
        rcases List.mem_cons.mp hx with h1 | h1
        · rw [h1] at hf; exact absurd hf hy
        · exact h1
      simp [uninit_copy, hy', ih ⟨x, hmem, hf⟩]

lemma expand_capacity_move_eq (v : Vec α) (nc : Nat) :
    (expand_capacity v nc true (fun _ => false)).1 =
      if nc ≤ v.cap then v else ⟨v.data, nc, true⟩ := by
  by_cases h : nc ≤ v.cap <;> simp [expand_capacity, h]

lemma check_expand_data (v : Vec α) :
    (check_expand_capacity v).data = v.data := by
  unfold check_expand_capacity
  by_cases h : v.data.length = v.cap
  · rw [if_pos h, expand_capacity_move_eq]
    by_cases h2 :
        (if v.empty then FIRST_EXPAND_CAPACITY else v.size * EXPAND_RATE) ≤ v.cap
    · rw [if_pos h2]
    · rw [if_neg h2]
  · rw [if_neg h]

lemma check_expand_alloc (v : Vec α) :
    v.data.length = v.cap → v.data.length = 0 →
      (check_expand_capacity v).alloc = true ∧
        (check_expand_capacity v).cap = FIRST_EXPAND_CAPACITY := by
  intro h h0
  have hc : v.cap = 0 := by omega
  have he : v.empty = true := by
    have : v.data = [] := List.length_eq_zero.mp h0
    simp [Vec.empty, this]
  unfold check_expand_capacity
  rw [if_pos h, expand_capacity_move_eq, he]
  rw [if_neg (by simp [FIRST_EXPAND_CAPACITY, hc])]
  exact ⟨rfl, rfl⟩

lemma check_expand_cap (v : Vec α) :
    (check_expand_capacity v).cap =
      if v.data.length = v.cap then
        (if v.data.length = 0 then FIRST_EXPAND_CAPACITY
         else v.data.length * EXPAND_RATE)
      else v.cap := by
  by_cases h : v.data.length = v.cap
  · rw [if_pos h]
    unfold check_expand_capacity
    rw [if_pos h, expand_capacity_move_eq]
    by_cases h0 : v.data.length = 0
    · have he : v.empty = true := by
        have : v.data = [] := List.length_eq_zero.mp h0
        simp [Vec.empty, this]
      have hc : v.cap = 0 := by omega
      rw [he, if_pos h0]
      rw [if_neg (by simp [FIRST_EXPAND_CAPACITY, hc])]
      rfl
    · have he : v.empty = false := by
        cases hd : v.data with
        | nil => rw [hd] at h0; simp at h0
        | cons a l => simp [Vec.empty, hd]
      have hrate : EXPAND_RATE = 2 := rfl
      have hne : ¬ v.size * EXPAND_RATE ≤ v.cap := by
        show ¬ v.data.length * EXPAND_RATE ≤ v.cap
        rw [hrate]
        omega
      rw [he, if_neg h0]
      simp only [Bool.false_eq_true, if_false]
      rw [if_neg hne]
      rfl
  · unfold check_expand_capacity
    rw [if_neg h, if_neg h]

lemma shift_loop_stop [Inhabited α] (idx i : Nat) (buf : List α)
    (h : i ≤ idx) : shift_loop idx i buf = buf := by
  cases i with
  | zero => rfl
  | succ i => simp [shift_loop, Nat.not_lt.mpr h]

lemma shift_loop_take_drop [Inhabited α] (d : List α) (idx : Nat) :
    ∀ k, idx + k < d.length →
      shift_loop idx (idx + k) (d.take (idx + k + 1) ++ d.drop (idx + k)) =
        d.take (idx + 1) ++ d.drop idx := by
  intro k
  induction k with
  | zero =>
    intro _
    simp only [Nat.add_zero]
    exact shift_loop_stop idx idx _ (Nat.le_refl idx)
  | succ k ih =>
    intro h
    have h1 : idx + (k + 1) = (idx + k) + 1 := by omega
    rw [h1]
    simp only [shift_loop]
    rw [if_pos (by omega)]
    have hlt : (d.take (idx + k + 1 + 1)).length = idx + k + 2 := by
      rw [List.length_take]; omega
    have hgd : (d.take (idx + k + 1 + 1) ++ d.drop (idx + k + 1)).getD
        (idx + k) default = d.getD (idx + k) default := by
      rw [getD_append_of_lt _ _ _ _ (by rw [hlt]; omega),
        getD_take_of_lt _ _ _ _ (by omega)]
    rw [hgd]
    have htk : d.take (idx + k + 1 + 1) =
        d.take (idx + k + 1) ++ [d.getD (idx + k + 1) default] :=
      take_succ_getD d (idx + k + 1) default (by omega)
    have hl : (d.take (idx + k + 1)).length = idx + k + 1 := by
      rw [List.length_take]; omega
    have hset : (d.take (idx + k + 1 + 1) ++ d.drop (idx + k + 1)).set
        (idx + k + 1) (d.getD (idx + k) default) =
        d.take (idx + k + 1) ++ d.drop (idx + k) := by
      rw [htk, List.append_assoc,
        set_append_eq_len _ _ _ _ hl.symm,
        List.singleton_append, List.set_cons_zero,
        ← drop_eq_getD_cons d (idx + k) default (by omega)]
    rw [hset]
    exact ih (by omega)

lemma emplace_err [Inhabited α] (v : Vec α) (idx : Nat) (x : α)
    (h : v.data.length < idx) : emplace v idx x = .error .outOfRange := by
  unfold emplace
  rw [if_pos h]

lemma emplace_ok [Inhabited α] (v : Vec α) (idx : Nat) (x : α)
    (h : idx ≤ v.data.length) :
    emplace v idx x =
      .ok (⟨v.data.take idx ++ x :: v.data.drop idx,
            (check_expand_capacity v).cap,
            (check_expand_capacity v).alloc⟩, idx) := by
  have hd : (check_expand_capacity v).data = v.data := check_expand_data v
  by_cases hcase : idx = v.data.length
  · simp only [emplace, hd]
    rw [if_neg (by omega), if_pos hcase]
    rw [hcase, List.take_length, List.drop_length]
  · have hlt : idx < v.data.length := by omega
    simp only [emplace, hd]
    rw [if_neg (by omega), if_neg hcase]
    have hbuf : v.data ++ [v.data.getD (v.data.length - 1) default] =
        v.data.take ((v.data.length - 1) + 1) ++
          v.data.drop (v.data.length - 1) := by
      rw [drop_eq_getD_cons v.data (v.data.length - 1) default (by omega),
        show (v.data.length - 1) + 1 = v.data.length from by omega,
        List.take_length, List.drop_length]
    have hshift := shift_loop_take_drop v.data idx (v.data.length - 1 - idx)
      (by omega)
    rw [show idx + (v.data.length - 1 - idx) = v.data.length - 1 from by omega]
      at hshift
    rw [hbuf, hshift]
    have htk : v.data.take (idx + 1) =
        v.data.take idx ++ [v.data.getD idx default] :=
      take_succ_getD v.data idx default hlt
    have hl : (v.data.take idx).length = idx := by
      rw [List.length_take]; omega
    rw [htk, List.append_assoc, set_append_eq_len _ _ _ _ hl.symm,
      List.singleton_append, List.set_cons_zero]

lemma insert_rep_ok (value : Nat) :
    ∀ (n : Nat) (v : Vec Nat) (pos : Nat), pos ≤ v.data.length →
      ∃ w, insert_rep value n v pos = .ok (w, pos) ∧
        w.data.length = v.data.length + n := by
  intro n
  induction n with
  | zero =>
    intro v pos _
    exact ⟨v, rfl, rfl⟩
  | succ n ih =>
    intro v pos h
    have he := emplace_ok v pos value h
    have hlen : (v.data.take pos ++ value :: v.data.drop pos).length =
        v.data.length + 1 := by
      rw [List.length_append, List.length_cons, List.length_take,
        List.length_drop]
      omega
    obtain ⟨w, hw, hwlen⟩ := ih
      ⟨v.data.take pos ++ value :: v.data.drop pos,
        (check_expand_capacity v).cap, (check_expand_capacity v).alloc⟩
      pos (by simp only [hlen]; omega)
    refine ⟨w, ?_, ?_⟩
    · simp only [insert_rep, insert, he, hw]
    · rw [hwlen]
      simp only [hlen]
      omega

lemma pushN_spec (n : Nat) :
    (pushN n).data.length = n ∧ (pushN n).cap = capOf n := by
  induction n with
  | zero => exact ⟨rfl, rfl⟩
  | succ n ih =>
    obtain ⟨hlen, hcap⟩ := ih
    constructor
    · show (push_back (pushN n) n).data.length = n + 1
      simp only [push_back, List.length_append, check_expand_data, hlen,
        List.length_cons, List.length_nil]
    · show (push_back (pushN n) n).cap = capOf (n + 1)
      simp only [push_back]
      rw [check_expand_cap, hlen, hcap, capOf]
      by_cases h : capOf n = n
      · rw [if_pos h, if_pos h.symm]
      · rw [if_neg h, if_neg (fun hh => h hh.symm)]

/-! Theorems settling the claims. -/

/-- C1: the claim says pop_back fails with an EmptyContainer condition if and
only if size is 0 and reports no error after removing the last element of a
nonempty container. The code (source lines 313-320) removes the last element
of [1] as required but then still throws the empty-container length_error: the
throw is unconditional, so the failure is not equivalent to size = 0. -/
theorem C1_pop_back_always_throws :
    pop_back (⟨[1], 10, true⟩ : Vec Nat) = (⟨[], 10, true⟩, true)
    ∧ ∀ (v : Vec Nat), (pop_back v).2 = true := by
  exact ⟨rfl, fun v => rfl⟩

/-- C4: the claim says front and back fail exactly when size is 0, including
after clear() on a container with positive capacity. In the code the guard is
elem_ != nullptr: after push_back(1) and clear() the block (capacity 10) is
retained, so front() and back() do not signal EmptyContainer although size is
0; they read a slot holding no live object (the value none here). -/
theorem C4_front_back_after_clear :
    (clear (push_back defaultVec (1 : Nat))).size = 0
    ∧ (clear (push_back defaultVec (1 : Nat))).capacity = 10
    ∧ front (clear (push_back defaultVec (1 : Nat))) = .ok none
    ∧ back (clear (push_back defaultVec (1 : Nat))) = .ok none := by
  exact ⟨rfl, rfl, rfl, rfl⟩

/-- C10: clear() leaves size 0 and empty() true but does not release the
storage block, so capacity() is exactly what it was before the call. -/
theorem C10_clear_keeps_capacity (v : Vec Nat) :
    (clear v).size = 0 ∧ (clear v).empty = true
    ∧ (clear v).capacity = v.capacity := by
  exact ⟨rfl, rfl, rfl⟩

/-- C3: the two operator[] overloads and the non-const at agree, return the
element at index i exactly when i < size, and throw out_of_range exactly when
i ≥ size. (The const at overload itself is ill-formed in the source — it
calls at() with no argument — and hence has no embedding; see the claim
record.) -/
theorem C3_checked_access (v : Vec Nat) (i : Nat) :
    at_acc v i = opIndex v i
    ∧ opIndex_const v i = opIndex v i
    ∧ (at_acc v i).toOption = v.data[i]?
    ∧ (v.data.length ≤ i → at_acc v i = .error .outOfRange) := by
  refine ⟨rfl, rfl, ?_, ?_⟩
  · unfold at_acc
    by_cases h : i < v.data.length
    · rw [dif_pos h, List.getElem?_eq_getElem h]
      simp [Except.toOption]
    · rw [dif_neg h, List.getElem?_eq_none (by omega)]
      simp [Except.toOption]
  · intro h
    unfold at_acc
    rw [dif_neg (by omega)]

/-- C3 witness: the checked accessor at index 0 of [5, 6] yields 5 and at
index 2 throws out_of_range. -/
theorem C3_checked_access_w :
    at_acc (⟨[5, 6], 10, true⟩ : Vec Nat) 2 = .error .outOfRange
    ∧ (at_acc (⟨[5, 6], 10, true⟩ : Vec Nat) 0).toOption = some 5 := by
  constructor
  · exact (C3_checked_access ⟨[5, 6], 10, true⟩ 2).2.2.2 (by decide)
  · rw [(C3_checked_access (⟨[5, 6], 10, true⟩ : Vec Nat) 0).2.2.1]
    rfl

/-- C5 counterexample: the claim says a full container grows to
max(10, size × 2). A container built by vector(4, 0) is full with size 4 and
capacity 4; push_back makes the capacity 8 = 4 × 2, not max(10, 8) = 10. -/
theorem C5_growth_cex :
    (push_back (mkVecFill 4 (0 : Nat)) 7).capacity = 8
    ∧ (8 : Nat) ≠ max 10 (4 * 2) := by
  exact ⟨rfl, by decide⟩

/-- C5 amended: when an append finds the container full, the capacity becomes
FIRST_EXPAND_CAPACITY = 10 if the container is empty and size × 2 otherwise
(the code tests empty(), not max(10, size × 2)); the capacity and the data
are unchanged when the container is not full. Consequently, after n push_back
calls on a default-constructed container the size is n and the capacity
follows capOf: 0, then 10, then doubling exactly when the prior capacity is
exhausted. -/
theorem C5_growth_amended :
    (∀ (v : Vec Nat),
      (check_expand_capacity v).data = v.data
      ∧ (check_expand_capacity v).cap =
          (if v.data.length = v.cap then
            (if v.data.length = 0 then FIRST_EXPAND_CAPACITY
             else v.data.length * EXPAND_RATE)
           else v.cap))
    ∧ (∀ (n : Nat), (pushN n).size = n ∧ (pushN n).capacity = capOf n) := by
  exact ⟨fun v => ⟨check_expand_data v, check_expand_cap v⟩,
    fun n => pushN_spec n⟩

/-- C6: positional insert/emplace at offset idx. An offset past cend() throws
out_of_range; a valid offset idx ≤ size places x at idx, shifts the elements
previously at idx or later one slot right, grows the size by exactly 1 and
returns an iterator to the inserted element (offset idx); idx = size behaves
as an append. insert(pos, value) delegates to emplace. -/
theorem C6_insert_emplace (v : Vec Nat) (idx : Nat) (x : Nat) :
    insert v idx x = emplace v idx x
    ∧ (v.data.length < idx → emplace v idx x = .error .outOfRange)
    ∧ (idx ≤ v.data.length →
        emplace v idx x =
          .ok (⟨v.data.take idx ++ x :: v.data.drop idx,
                (check_expand_capacity v).cap,
                (check_expand_capacity v).alloc⟩, idx)
        ∧ (v.data.take idx ++ x :: v.data.drop idx).length =
            v.data.length + 1
        ∧ (v.data.take idx ++ x :: v.data.drop idx).getD idx 0 = x) := by
  refine ⟨rfl, fun h => emplace_err v idx x h, fun h => ⟨emplace_ok v idx x h,
    ?_, ?_⟩⟩
  · rw [List.length_append, List.length_cons, List.length_take,
      List.length_drop]
    omega
  · have hl : (v.data.take idx).length = idx := by
      rw [List.length_take]; omega
    rw [getD_append_eq_len _ _ _ _ hl.symm, List.getD_cons_zero]

/-- C6 witness: inserting 9 at offset 1 of [1, 2, 3] yields [1, 9, 2, 3] and
returns offset 1, and inserting past the end throws out_of_range. -/
theorem C6_insert_emplace_w :
    emplace (⟨[1, 2, 3], 10, true⟩ : Vec Nat) 1 9 =
      .ok (⟨[1, 9, 2, 3], 10, true⟩, 1)
    ∧ emplace (⟨[1, 2, 3], 10, true⟩ : Vec Nat) 4 9 = .error .outOfRange := by
  constructor
  · rw [((C6_insert_emplace ⟨[1, 2, 3], 10, true⟩ 1 9).2.2 (by decide)).1]
    rfl
  · exact (C6_insert_emplace ⟨[1, 2, 3], 10, true⟩ 4 9).2.1 (by decide)

/-- C7 counterexample: the claim says erase(first, last) must fail with an
out-of-range condition whenever first > last. On [1, 2, 3] with first = 2 and
last = 0 (both inside the bound range) the guard of the source, line 443,
accepts the call and no failure is signalled. -/
theorem C7_erase_range_cex :
    isOkE (erase_range (⟨[1, 2, 3], 3, true⟩ : Vec Nat) 2 0) = true := by
  rfl

/-- C7 amended: the guard of erase(first, last) checks only first ≥ begin and
last ≤ end, so with offsets it fails with out_of_range exactly when
last > size and does not reject first > last (such a call proceeds into
out-of-bounds writes past free_). For a well-formed range first ≤ last ≤ size
it removes the elements of [first, last), shifts the suffix starting at last
leftward onto first preserving its order, decreases the size by last − first
and returns first. -/
theorem C7_erase_range_amended (v : Vec Nat) (first last : Nat) :
    (v.data.length < last → erase_range v first last = .error .outOfRange)
    ∧ (first ≤ last → last ≤ v.data.length →
        erase_range v first last =
          .ok (⟨v.data.take first ++ v.data.drop last, v.cap, v.alloc⟩, first)
        ∧ (v.data.take first ++ v.data.drop last).length =
            v.data.length - (last - first)) := by
  constructor
  · intro h
    unfold erase_range
    rw [if_neg (by omega)]
  · intro h1 h2
    constructor
    · unfold erase_range
      rw [if_pos h2]
    · rw [List.length_append, List.length_take, List.length_drop]
      omega

/-- C7 witness: on [1, 2, 3, 4], erase of the offset range [1, 3) yields
[1, 4] and returns offset 1, and a range whose end exceeds the size throws
out_of_range. -/
theorem C7_erase_range_amended_w :
    erase_range (⟨[1, 2, 3, 4], 10, true⟩ : Vec Nat) 1 5 =
      .error .outOfRange
    ∧ erase_range (⟨[1, 2, 3, 4], 10, true⟩ : Vec Nat) 1 3 =
        .ok (⟨[1, 4], 10, true⟩, 1) := by
  constructor
  · exact (C7_erase_range_amended ⟨[1, 2, 3, 4], 10, true⟩ 1 5).1 (by decide)
  · rw [((C7_erase_range_amended ⟨[1, 2, 3, 4], 10, true⟩ 1 3).2 (by decide)
      (by decide)).1]
    rfl

/-- C2: the claim says resize(5, 0) on [9, 2, 3] appends two copies of 0.
The shrink branch is correct: resize(2, 0) yields [9, 2]. But the growth
branch computes the count to append as size() - new_size = 3 - 5 in unsigned
size_type arithmetic, which is 2 ^ 64 - 2, so the call tries to append
2 ^ 64 - 2 copies: the resulting length is 3 + (2 ^ 64 - 2), not 5. -/
theorem C2_resize_growth_reversed :
    (resize (⟨[9, 2, 3], 10, true⟩ : Vec Nat) 2 0).map (fun r => r.data) =
      .ok [9, 2]
    ∧ (resize (⟨[9, 2, 3], 10, true⟩ : Vec Nat) 5 0).map
        (fun r => r.data.length) = .ok (3 + (SIZE_T_MOD - 2))
    ∧ 3 + (SIZE_T_MOD - 2) ≠ 5 := by
  have hmod : SIZE_T_MOD = 18446744073709551616 := by norm_num [SIZE_T_MOD]
  refine ⟨rfl, ?_, ?_⟩
  · obtain ⟨w, hw, hwlen⟩ := insert_rep_ok 0 (SIZE_T_MOD - 2)
      ⟨[9, 2, 3], 10, true⟩ 3 (by decide)
    have hn : insert_n (⟨[9, 2, 3], 10, true⟩ : Vec Nat) 3 (SIZE_T_MOD - 2)
        0 = .ok (w, 3) := by
      unfold insert_n
      rw [if_neg (by rw [hmod]; omega)]
      exact hw
    have hr : resize (⟨[9, 2, 3], 10, true⟩ : Vec Nat) 5 0 =
        (insert_n (⟨[9, 2, 3], 10, true⟩ : Vec Nat) 3 (SIZE_T_MOD - 2)
          0).map (fun p => p.1) := by
      unfold resize
      rw [if_neg (by decide), if_pos (by decide)]
      rw [show ((⟨[9, 2, 3], 10, true⟩ : Vec Nat).data.length + SIZE_T_MOD
          - 5) % SIZE_T_MOD = SIZE_T_MOD - 2 from by decide]
      rfl
    rw [hr, hn]
    show Except.ok w.data.length = _
    rw [hwlen]
    rfl
  · rw [hmod]
    omega

/-- C8: in the copy branch of growth (taken when the element move constructor
may throw), a copy failure while relocating into the new block leaves the
container exactly as before the call and propagates the failure; when every
copy succeeds, the data is preserved and only the capacity grows. -/
theorem C8_expand_strong_guarantee (v : Vec Nat) (nc : Nat)
    (fails : Nat → Bool) :
    (v.cap < nc → (∃ x ∈ v.data, fails x = true) →
        expand_capacity v nc false fails = (v, true))
    ∧ (v.cap < nc → (∀ x ∈ v.data, fails x = false) →
        expand_capacity v nc false fails = (⟨v.data, nc, true⟩, false)) := by
  constructor
  · intro h hex
    unfold expand_capacity
    rw [if_neg (by omega), uninit_copy_of_exists fails v.data hex]
    rfl
  · intro h hall
    unfold expand_capacity
    rw [if_neg (by omega), uninit_copy_of_forall fails v.data hall]
    rfl

/-- C8 witness: growing [1, 2] from capacity 2 to 4 with a copy constructor
that throws on the value 2 leaves the container exactly as before and throws;
with a copy constructor that never throws it succeeds with capacity 4. -/
theorem C8_expand_strong_guarantee_w :
    expand_capacity (⟨[1, 2], 2, true⟩ : Vec Nat) 4 false
        (fun x => decide (x = 2)) = (⟨[1, 2], 2, true⟩, true)
    ∧ expand_capacity (⟨[1, 2], 2, true⟩ : Vec Nat) 4 false
        (fun _ => false) = (⟨[1, 2], 4, true⟩, false) := by
  constructor
  · exact (C8_expand_strong_guarantee ⟨[1, 2], 2, true⟩ 4
      (fun x => decide (x = 2))).1 (by decide) ⟨2, by decide, by decide⟩
  · exact (C8_expand_strong_guarantee ⟨[1, 2], 2, true⟩ 4
      (fun _ => false)).2 (by decide) (fun x _ => rfl)

/-- C9: copy-assignment builds a full temporary copy of the source and swaps
with it. When every element copy succeeds the call reports no failure, the
target ends with the source data (so self-assignment preserves size and
element values) and its size is at most its capacity; when a copy fails, the
target is returned exactly as it was (the swap never runs). -/
theorem C9_copy_assign_swap (target src : Vec Nat) (fails : Nat → Bool) :
    ((∀ x ∈ src.data, fails x = false) →
        (assign_copy target src fails).2 = false
        ∧ (assign_copy target src fails).1.data = src.data
        ∧ (assign_copy target src fails).1.data.length ≤
            (assign_copy target src fails).1.cap)
    ∧ ((∃ x ∈ src.data, fails x = true) →
        assign_copy target src fails = (target, true)) := by
  constructor
  · intro hall
    have hcc : copy_construct fails src =
        some (if src.data.isEmpty then (⟨[], 0, false⟩ : Vec Nat)
              else ⟨src.data, src.data.length, true⟩) := by
      unfold copy_construct
      by_cases h : src.data.isEmpty
      · rw [if_pos h, if_pos h]
      · rw [if_neg h, if_neg h, uninit_copy_of_forall fails src.data hall]
        rfl
    by_cases h : src.data.isEmpty
    · have hnil : src.data = [] := by
        cases hd : src.data with
        | nil => rfl
        | cons a l => rw [hd] at h; simp at h
      unfold assign_copy
      rw [hcc, if_pos h]
      exact ⟨rfl, hnil.symm, Nat.le_refl _⟩
    · unfold assign_copy
      rw [hcc, if_neg h]
      exact ⟨rfl, rfl, Nat.le_refl _⟩
  · intro hex
    have hne : src.data.isEmpty = false := by
      obtain ⟨x, hx, _⟩ := hex
      cases hd : src.data with
      | nil => rw [hd] at hx; simp at hx
      | cons a l => rfl
    unfold assign_copy copy_construct
    rw [hne]
    simp only [Bool.false_eq_true, if_false]
    rw [uninit_copy_of_exists fails src.data hex]
    rfl

/-- C9 witness: self-assignment of [1, 2, 3] keeps the data and reports no
failure, and an assignment whose element copy throws on the value 2 leaves
the target untouched. -/
theorem C9_copy_assign_swap_w :
    (assign_copy (⟨[1, 2, 3], 10, true⟩ : Vec Nat) ⟨[1, 2, 3], 10, true⟩
        (fun _ => false)).1.data = [1, 2, 3]
    ∧ (assign_copy (⟨[1, 2, 3], 10, true⟩ : Vec Nat) ⟨[1, 2, 3], 10, true⟩
        (fun _ => false)).2 = false
    ∧ assign_copy (⟨[1, 2, 3], 10, true⟩ : Vec Nat) ⟨[1, 2, 3], 10, true⟩
        (fun x => decide (x = 2)) = (⟨[1, 2, 3], 10, true⟩, true) := by
  refine ⟨?_, ?_, ?_⟩
  · exact ((C9_copy_assign_swap ⟨[1, 2, 3], 10, true⟩ ⟨[1, 2, 3], 10, true⟩
      (fun _ => false)).1 (fun x _ => rfl)).2.1
  · exact ((C9_copy_assign_swap ⟨[1, 2, 3], 10, true⟩ ⟨[1, 2, 3], 10, true⟩
      (fun _ => false)).1 (fun x _ => rfl)).1
  · exact (C9_copy_assign_swap ⟨[1, 2, 3], 10, true⟩ ⟨[1, 2, 3], 10, true⟩
      (fun x => decide (x = 2))).2 ⟨2, by decide, by decide⟩

end MySTL
